import Mathlib

/-!
Shallow embedding of `src/find-projects.py` (jetbrains-search-provider):
discovery of recently-opened JetBrains IDE projects.

Filesystem and environment access is modelled by an explicit `FS` record of
query functions; Python exceptions are modelled by `Except PyErr`; `pathlib`
paths are modelled by `FPath` (an anchor flag plus a list of components);
JSON documents by the inductive `Json`.
-/

/-- Kinds of Python exceptions that the script can raise or catch.
`fileNotFound` models `FileNotFoundError`; `osError` models any other
`OSError` subclass (e.g. `PermissionError`); `valueError` models
`ValueError`; `parseError` models `xml.etree.ElementTree.ParseError`. -/
inductive PyErr where
  | valueError (msg : String)
  | fileNotFound (msg : String)
  | osError (msg : String)
  | parseError (msg : String)
deriving DecidableEq, Repr

/-- Model of `str(exc)` for a modelled exception. -/
def PyErr.message : PyErr → String
  | .valueError m => m
  | .fileNotFound m => m
  | .osError m => m
  | .parseError m => m

/-- Model of `traceback.format_exc()`: an abstract traceback string for the
exception currently being handled. -/
def PyErr.formatExc (e : PyErr) : String :=
  "Traceback (most recent call last): " ++ e.message

/-- Model of a `pathlib.Path`: `anchor = true` means the path is absolute
(has a leading slash); `parts` are the remaining components in order.
A leading `~` is an ordinary first component until `expanduser` runs,
exactly as in `pathlib`. -/
structure FPath where
  anchor : Bool
  parts : List String
deriving DecidableEq, Repr

/-- Model of `path / component` of `pathlib`. -/
def FPath.join (p : FPath) (c : String) : FPath :=
  ⟨p.anchor, p.parts ++ [c]⟩

/-- Model of `path.name` of `pathlib`: the final component (empty for a root path). -/
def FPath.name (p : FPath) : String :=
  (p.parts.getLast?).getD ""

/-- Model of `path.parent` of `pathlib`, on paths with at least one component. -/
def FPath.parent (p : FPath) : FPath :=
  ⟨p.anchor, p.parts.dropLast⟩

/-- Model of `str(path)` of `pathlib` (POSIX flavour). -/
def FPath.render (p : FPath) : String :=
  let joined := String.intercalate "/" p.parts
  if p.anchor then "/" ++ joined
  else if p.parts.isEmpty then "." else joined

/-- Model of `path.expanduser()`: replace a leading `~` component by the home
directory; any other path is returned unchanged. -/
def FPath.expanduser (home : FPath) (p : FPath) : FPath :=
  if p.anchor = false ∧ p.parts.head? = some "~" then
    ⟨home.anchor, home.parts ++ p.parts.tail⟩
  else p

/-- Boolean prefix test on strings, by structural recursion on the
underlying character lists (so that it evaluates inside the kernel). -/
def strStartsWith (s p : String) : Bool :=
  p.data.isPrefixOf s.data

/-- Boolean suffix test on strings, by structural recursion. -/
def strEndsWith (s p : String) : Bool :=
  p.data.isSuffixOf s.data

/-- Splitting a character list at every occurrence of a separator
character; adjacent separators produce empty groups, as `str.split`
on a single-character separator does. -/
def splitOnChar (sep : Char) : List Char → List (List Char)
  | [] => [[]]
  | c :: rest =>
    if c = sep then [] :: splitOnChar sep rest
    else
      match splitOnChar sep rest with
      | [] => [[c]]
      | g :: gs => (c :: g) :: gs

/-- Model of `pathlib.Path(s)` for a POSIX path string: absolute iff `s` starts with
a slash; empty and `.` components are dropped, as `pathlib` normalises them. -/
def parseFPath (s : String) : FPath :=
  ⟨strStartsWith s "/",
   ((splitOnChar '/' s.data).map String.mk).filter (fun c => !c.isEmpty && c ≠ ".")⟩

/-- Model of `value.replace('$USER_HOME$', '~')`: substitute every
occurrence of the placeholder, scanning left to right. -/
def replaceUserHome : List Char → List Char
  | '$' :: 'U' :: 'S' :: 'E' :: 'R' :: '_' :: 'H' :: 'O' :: 'M' :: 'E' :: '$' :: rest =>
    '~' :: replaceUserHome rest
  | c :: rest => c :: replaceUserHome rest
  | [] => []

/-- Whitespace as stripped by `str.strip()` (the ASCII cases). -/
def isSpaceChar (c : Char) : Bool :=
  c = ' ' || c = '\t' || c = '\n' || c = '\r' || c = '\x0b' || c = '\x0c'

/-- Dropping leading whitespace from a character list. -/
def dropLeadingSpace : List Char → List Char
  | [] => []
  | c :: rest => if isSpaceChar c then dropLeadingSpace rest else c :: rest

/-- Model of `str.strip()`: drop whitespace from both ends. -/
def stripStr (s : String) : String :=
  String.mk ((dropLeadingSpace ((dropLeadingSpace s.data).reverse)).reverse)

/-- JSON documents, as produced by `json.dumps` (before serialisation to
text): the script only ever builds strings, arrays and objects. -/
inductive Json where
  | str (s : String)
  | arr (xs : List Json)
  | obj (fields : List (String × Json))
deriving Repr

/-- The environment and filesystem visible to one run of the script.
`readText` models `Path.read_text`, `parseXml` models parsing a
recent-projects XML file and extracting the `value` attributes of the
options below the `recentPaths` option (the result of `findall` in
`find_recent_projects`); a missing or malformed file is an `.error`. -/
structure FS where
  /-- Model of `Path.home()`. -/
  home : FPath
  /-- Model of the environment lookup of XDG_CONFIG_HOME, decoded; empty if unset. -/
  xdgConfigHome : String
  /-- Model of `Path.exists` on the exact (not expanded) path handed to it. -/
  pexists : FPath → Bool
  /-- Model of `Path.is_file` on the exact path handed to it. -/
  isFile : FPath → Bool
  /-- Reading a directory: entry names, in filesystem enumeration order. -/
  listDir : FPath → List String
  /-- Model of reading a file as UTF-8 text. -/
  readText : FPath → Except PyErr String
  /-- XML parse plus `findall('.//option[@name="recentPaths"]/list/option')`,
  yielding each element's `value` attribute. -/
  parseXml : FPath → Except PyErr (List String)

/-- Model of `ProductInfo = namedtuple('ProductInfo', 'key config_glob')`. -/
structure ProductInfo where
  key : String
  config_glob : String
deriving DecidableEq, Repr

/-- The fixed `PRODUCTS` list of the script. -/
def PRODUCTS : List ProductInfo :=
  [⟨"idea", "IntelliJIdea*"⟩,
   ⟨"idea-ce", "IdeaIC*"⟩,
   ⟨"webstorm", "WebStorm*"⟩,
   ⟨"clion", "CLion*"⟩,
   ⟨"goland", "GoLand*"⟩,
   ⟨"pycharm", "PyCharm*"⟩,
   ⟨"phpstorm", "PhpStorm*"⟩,
   ⟨"rider", "Rider*"⟩]

/-- Glob-pattern match restricted to the patterns the script uses: every
entry of `PRODUCTS` has a pattern of the form `stem*` with no other
metacharacter, which matches exactly the names starting with `stem`. -/
def globMatch (pattern name : String) : Bool :=
  if strEndsWith pattern "*" then strStartsWith name (pattern.dropRight 1)
  else pattern == name

/-- Model of `int(s)` on a string of ASCII digits. -/
def digitsToNat (cs : List Char) : Nat :=
  cs.foldl (fun n c => n * 10 + (c.toNat - 48)) 0

/-- Try to match the regex `\d{4}\.\d{1,2}` at the start of the character
list, returning the year digits and the revision digits of the match
(i.e. `group(0)` split at the dot). The revision is greedy: two digits
when a second digit follows, otherwise one. -/
def matchVersionAt : List Char → Option (List Char × List Char)
  | a :: b :: c :: d :: e :: rest =>
    if a.isDigit && b.isDigit && c.isDigit && d.isDigit && e == '.' then
      match rest with
      | f :: rest2 =>
        if f.isDigit then
          match rest2 with
          | g :: _ => if g.isDigit then some ([a,b,c,d], [f,g]) else some ([a,b,c,d], [f])
          | [] => some ([a,b,c,d], [f])
        else none
      | [] => none
    else none
  | _ => none

/-- Model of the regex search: leftmost match of the version pattern wins. -/
def searchVersion : List Char → Option (List Char × List Char)
  | [] => none
  | c :: cs =>
    match matchVersionAt (c :: cs) with
    | some m => some m
    | none => searchVersion cs

/-- Model of `product_version(config_dir)` of the script: search the directory name
for `\d{4}\.\d{1,2}`, split the match at the dot and convert both sides
with `int`; raise `ValueError` when there is no match. -/
def product_version (config_dir : FPath) : Except PyErr (Nat × Nat) :=
  match searchVersion config_dir.name.data with
  | some (y, r) => .ok (digitsToNat y, digitsToNat r)
  | none => .error (.valueError ("Not a valid IDEA config directory: " ++ config_dir.render))

/-- Model of `find_config_directories(product)`: glob the product's pattern under
`<config-home>/JetBrains`, where config-home is `$XDG_CONFIG_HOME` when
set and non-empty, else `~/.config`. -/
def find_config_directories (fs : FS) (product : ProductInfo) : List FPath :=
  let config_home :=
    if fs.xdgConfigHome.isEmpty then fs.home.join ".config"
    else parseFPath fs.xdgConfigHome
  let jb := config_home.join "JetBrains"
  ((fs.listDir jb).filter (globMatch product.config_glob)).map jb.join

/-- Strict ordering on `(year, revision)` tuples: Python tuple `<`. -/
def verLt (a b : Nat × Nat) : Bool :=
  a.1 < b.1 || (a.1 == b.1 && a.2 < b.2)

/-- The loop of Python's `max(it, key=product_version)` after the first
element: keep the current best, replacing it only on a strictly greater
key, and propagate any exception the key function raises. -/
def maxConfigDirAux (best : FPath × (Nat × Nat)) :
    List FPath → Except PyErr (FPath × (Nat × Nat))
  | [] => .ok best
  | d :: ds =>
    match product_version d with
    | .error e => .error e
    | .ok v => if verLt best.2 v then maxConfigDirAux (d, v) ds else maxConfigDirAux best ds

/-- Model of `max(dirs, key=product_version, default=None)`. -/
def maxConfigDirList : List FPath → Except PyErr (Option FPath)
  | [] => .ok none
  | d :: ds =>
    match product_version d with
    | .error e => .error e
    | .ok v => (maxConfigDirAux (d, v) ds).map (fun b => some b.1)

/-- Model of `find_latest_recent_projects_file(product)`: pick the config directory
with the maximum version; Rider reads `options/recentSolutions.xml`, every
other product reads `options/recentProjects.xml`; no matching directory
yields `None`. -/
def find_latest_recent_projects_file (fs : FS) (product : ProductInfo) :
    Except PyErr (Option FPath) := do
  let best ← maxConfigDirList (find_config_directories fs product)
  match best with
  | some config_dir =>
    if product.key == "rider" then
      pure (some ((config_dir.join "options").join "recentSolutions.xml"))
    else
      pure (some ((config_dir.join "options").join "recentProjects.xml"))
  | none => pure none

/-- A project record, the dictionary built by `get_project`. -/
structure Project where
  id : String
  name : String
  path : String
  abspath : String
deriving DecidableEq, Repr

/-- The `project_dir` binding of `get_project`: the path's parent when the
expanded path is a file, else the path itself. -/
def project_dir_of (fs : FS) (path : FPath) : FPath :=
  if fs.isFile (FPath.expanduser fs.home path) then path.parent else path

/-- The `namefile` binding of `get_project`: `project_dir / '.idea' / '.name'`. -/
def namefile_of (fs : FS) (path : FPath) : FPath :=
  ((project_dir_of fs path).join ".idea").join ".name"

/-- Model of `get_project(product, path)`: the name comes from
`<project-dir>/.idea/.name` stripped of surrounding whitespace, falling
back to `path.name` only on `FileNotFoundError` — any other error
propagates.  Note the name file is read at the unexpanded project
directory, exactly as in the source. -/
def get_project (fs : FS) (product : ProductInfo) (path : FPath) :
    Except PyErr Project :=
  let nameRes : Except PyErr String :=
    match fs.readText (namefile_of fs path) with
    | .ok s => .ok (stripStr s)
    | .error (.fileNotFound _) => .ok path.name
    | .error e => .error e
  nameRes.map fun name =>
    { id := "jetbrains-search-provider-" ++ product.key ++ "-"
        ++ (FPath.expanduser fs.home path).render
      name := name
      path := path.render
      abspath := (FPath.expanduser fs.home path).render }

/-- The loop of `find_recent_projects`: keep only paths whose expanded form
exists, building a record for each survivor. -/
def collectProjects (fs : FS) (product : ProductInfo) :
    List FPath → Except PyErr (List Project)
  | [] => .ok []
  | p :: ps =>
    if fs.pexists (FPath.expanduser fs.home p) then do
      let proj ← get_project fs product p
      let rest ← collectProjects fs product ps
      pure (proj :: rest)
    else collectProjects fs product ps

/-- Model of `find_recent_projects(product, recent_projects_file)`: parse the XML
file, turn each `value` attribute into a path after substituting
`$USER_HOME$` by `~`, and collect a record for each existing path. -/
def find_recent_projects (fs : FS) (product : ProductInfo) (file : FPath) :
    Except PyErr (List Project) := do
  let values ← fs.parseXml file
  collectProjects fs product
    (values.map fun v => parseFPath (String.mk (replaceUserHome v.data)))

/-- One iteration of the `find_all_recent_projects` loop: the pair the
generator yields for one product. -/
def discoverOne (fs : FS) (product : ProductInfo) :
    Except PyErr (String × List Project) := do
  let config_file ← find_latest_recent_projects_file fs product
  match config_file with
  | some f =>
    if fs.pexists f then do
      let ps ← find_recent_projects fs product f
      pure (product.key, ps)
    else pure (product.key, ([] : List Project))
  | none => pure (product.key, ([] : List Project))

/-- The loop of `find_all_recent_projects` over an arbitrary product list. -/
def discoverAll (fs : FS) : List ProductInfo →
    Except PyErr (List (String × List Project))
  | [] => .ok []
  | product :: rest => do
    let entry ← discoverOne fs product
    let others ← discoverAll fs rest
    pure (entry :: others)

/-- Model of `list(find_all_recent_projects())`. -/
def find_all_recent_projects (fs : FS) :
    Except PyErr (List (String × List Project)) :=
  discoverAll fs PRODUCTS

/-- Model of `success(projects)`. -/
def successJson (projects : Json) : Json :=
  .obj [("kind", .str "success"), ("projects", projects)]

/-- Model of `error(message, traceback)`. -/
def errorJson (message traceback : String) : Json :=
  .obj [("kind", .str "error"), ("message", .str message), ("traceback", .str traceback)]

/-- JSON shape of one project record. -/
def projectToJson (p : Project) : Json :=
  .obj [("id", .str p.id), ("name", .str p.name),
        ("path", .str p.path), ("abspath", .str p.abspath)]

/-- JSON shape of the aggregated result: `json.dumps` serialises the list
of `(key, projects)` tuples as an array of two-element arrays. -/
def resultToJson (l : List (String × List Project)) : Json :=
  .arr (l.map fun e => .arr [.str e.1, .arr (e.2.map projectToJson)])

/-- Model of `main()`: on success print the success document and exit 0; on any
exception print the error document and exit 1.  The result is the single
printed JSON document paired with the exit status. -/
def main_run (fs : FS) : Json × Nat :=
  match find_all_recent_projects fs with
  | .ok projects => (successJson (resultToJson projects), 0)
  | .error e => (errorJson e.message e.formatExc, 1)

/-! ## JSON shape predicates, used to state claims about the output shape -/

/-- Decides whether a JSON value is an object with exactly the four record
fields `id`, `name`, `path`, `abspath`, each holding a string. -/
def isRecordObj : Json → Bool
  | .obj [(k1, .str _), (k2, .str _), (k3, .str _), (k4, .str _)] =>
    k1 == "id" && k2 == "name" && k3 == "path" && k4 == "abspath"
  | _ => false

/-- Decides whether a JSON value is a two-element array pairing a product
key with an array of project-record objects. -/
def isProductPair : Json → Bool
  | .arr [.str _, .arr objs] => objs.all isRecordObj
  | _ => false

/-- Decides whether a JSON value is an array of product pairs: the shape
the script actually emits for the `projects` field. -/
def outputShapeOk : Json → Bool
  | .arr pairs => pairs.all isProductPair
  | _ => false

/-- Decides the shape claimed for the fixture output: an array containing
exactly one project-record object. -/
def claimC1Shape : Json → Bool
  | .arr [o] => isRecordObj o
  | _ => false

/-- Lookup of the `projects` field of a top-level JSON object. -/
def projectsField : Json → Option Json
  | .obj fields => (fields.find? (fun f => f.1 == "projects")).map Prod.snd
  | _ => none

/-! ## Concrete fixtures (filesystems used as witnesses and counterexamples) -/

/-- Home directory used by all fixtures. -/
def homeP : FPath := ⟨true, ["home", "user"]⟩

/-- The JetBrains configuration root `~/.config/JetBrains` of the fixtures. -/
def jbP : FPath := ⟨true, ["home", "user", ".config", "JetBrains"]⟩

/-- The `idea` product descriptor. -/
def ideaProduct : ProductInfo := ⟨"idea", "IntelliJIdea*"⟩

/-- The `rider` product descriptor. -/
def riderProduct : ProductInfo := ⟨"rider", "Rider*"⟩

/-- A filesystem with nothing on it. -/
def emptyFS : FS where
  home := homeP
  xdgConfigHome := ""
  pexists := fun _ => false
  isFile := fun _ => false
  listDir := fun _ => []
  readText := fun p => .error (.fileNotFound p.render)
  parseXml := fun p => .error (.fileNotFound p.render)

/-- The spec's end-to-end fixture: a home directory containing
`.IntelliJIdea2023.2/config/options/recentProjects.xml` (the pre-2020
dotted layout) with one entry whose resolved path exists. -/
def fixtureC1 : FS :=
  { emptyFS with
    pexists := fun p =>
      p.render == "/home/user/.IntelliJIdea2023.2/config/options/recentProjects.xml"
      || p.render == "/home/user/projects/hello"
    listDir := fun p =>
      if p.render == "/home/user" then [".IntelliJIdea2023.2", "projects"] else []
    parseXml := fun p =>
      if p.render == "/home/user/.IntelliJIdea2023.2/config/options/recentProjects.xml"
      then .ok ["$USER_HOME$/projects/hello"]
      else .error (.fileNotFound p.render) }

/-- A working fixture: two versioned `idea` config directories under the
JetBrains root, the newer one holding a recent-projects file with one
entry whose resolved path exists. -/
def fixtureOk : FS :=
  { emptyFS with
    pexists := fun p =>
      p.render == "/home/user/.config/JetBrains/IntelliJIdea2023.2/options/recentProjects.xml"
      || p.render == "/home/user/projects/hello"
    listDir := fun p =>
      if p == jbP then ["IntelliJIdea2023.1", "IntelliJIdea2023.2"] else []
    parseXml := fun p =>
      if p.render == "/home/user/.config/JetBrains/IntelliJIdea2023.2/options/recentProjects.xml"
      then .ok ["$USER_HOME$/projects/hello"]
      else .error (.parseError p.render) }

/-- A fixture whose JetBrains root holds a config directory with no
version in its name, so that discovery raises `ValueError`. -/
def fixtureErr : FS :=
  { emptyFS with
    listDir := fun p => if p == jbP then ["IntelliJIdeaNoVersion"] else [] }

/-- A directory name carrying a three-digit revision. -/
def dirC3 : FPath := ⟨true, ["home", "user", ".config", "JetBrains", "IntelliJIdea2023.123"]⟩

/-- A fixture with two `idea` config directories of equal version
`(2023, 2)`, enumerated north first, south second. -/
def fixtureC5 : FS :=
  { emptyFS with
    listDir := fun p =>
      if p == jbP then ["IntelliJIdea2023.2north", "IntelliJIdea2023.2south"] else [] }

/-- A fixture with a single pre-2020 `idea` config directory. -/
def fixtureC6 : FS :=
  { emptyFS with
    listDir := fun p => if p == jbP then ["IntelliJIdea2019.3"] else [] }

/-- A fixture with a single Rider config directory. -/
def fixtureRider : FS :=
  { emptyFS with
    listDir := fun p => if p == jbP then ["Rider2023.1"] else [] }

/-- A project directory whose name sidecar file holds whitespace around
the name. -/
def fixtureC7a : FS :=
  { emptyFS with
    readText := fun p =>
      if p.render == "/home/user/projects/app/.idea/.name"
      then .ok " MyApp \n"
      else .error (.fileNotFound p.render) }

/-- A fixture in which the recent-paths entry denotes a file inside the
project directory and no name sidecar file exists. -/
def fixtureC7b : FS :=
  { emptyFS with
    isFile := fun p => p.render == "/home/user/projects/app/thing.ipr" }

/-- A fixture in which reading the name sidecar file fails with a
permission error rather than file-not-found. -/
def fixtureC8 : FS :=
  { emptyFS with
    readText := fun p =>
      if p.render == "/home/user/projects/app/.idea/.name"
      then .error (.osError "Permission denied")
      else .error (.fileNotFound p.render) }

/-- The single project record discovered on `fixtureOk`. -/
def helloProject : Project :=
  { id := "jetbrains-search-provider-idea-/home/user/projects/hello",
    name := "hello",
    path := "~/projects/hello",
    abspath := "/home/user/projects/hello" }

/-- The discovery result on `fixtureOk`. -/
def fixtureOkResult : List (String × List Project) :=
  [("idea", [helloProject]), ("idea-ce", []), ("webstorm", []), ("clion", []),
   ("goland", []), ("pycharm", []), ("phpstorm", []), ("rider", [])]

/-- The discovery result on a filesystem with no config directories. -/
def emptyResult : List (String × List Project) :=
  PRODUCTS.map fun p => (p.key, [])

/-! ## Lemmas about the version ordering and the maximum selection -/

/-- Unfolding of the strict version order. -/
theorem verLt_true_iff (a b : Nat × Nat) :
    verLt a b = true ↔ a.1 < b.1 ∨ (a.1 = b.1 ∧ a.2 < b.2) := by
  simp [verLt]

/-- Unfolding of the negation of the strict version order. -/
theorem verLt_false_iff (a b : Nat × Nat) :
    verLt a b = false ↔ ¬(a.1 < b.1 ∨ (a.1 = b.1 ∧ a.2 < b.2)) := by
  rw [Bool.eq_false_iff, Ne, verLt_true_iff]

/-- Invariant of the `max` loop: the returned element never compares below
the running best or any listed element, and it is either the running best
or sits in the list strictly above the running best and everything
enumerated before it. -/
theorem maxAux_spec :
    ∀ (ds : List FPath) (b : FPath) (vb : Nat × Nat) (d : FPath) (vd : Nat × Nat),
    maxConfigDirAux (b, vb) ds = .ok (d, vd) →
    verLt vd vb = false ∧
    (∀ d' ∈ ds, ∀ v', product_version d' = .ok v' → verLt vd v' = false) ∧
    ((d = b ∧ vd = vb) ∨
     ∃ pre post, ds = pre ++ d :: post ∧ product_version d = .ok vd ∧ verLt vb vd = true ∧
       ∀ d' ∈ pre, ∀ v', product_version d' = .ok v' → verLt v' vd = true)
  | [], b, vb, d, vd, h => by
    simp only [maxConfigDirAux, Except.ok.injEq, Prod.mk.injEq] at h
    obtain ⟨hd, hv⟩ := h
    subst hd; subst hv
    refine ⟨?_, by simp, Or.inl ⟨rfl, rfl⟩⟩
    rw [verLt_false_iff]; omega
  | d0 :: ds, b, vb, d, vd, h => by
    rw [maxConfigDirAux] at h
    cases h0 : product_version d0 with
    | error e => rw [h0] at h; exact absurd h (by simp)
    | ok v0 =>
      rw [h0] at h
      dsimp only at h
      by_cases hlt : verLt vb v0 = true
      · rw [if_pos hlt] at h
        obtain ⟨hb, hall, hcase⟩ := maxAux_spec ds d0 v0 d vd h
        have hvdvb : verLt vd vb = false := by
          rw [verLt_false_iff] at hb ⊢
          rw [verLt_true_iff] at hlt
          omega
        refine ⟨hvdvb, ?_, ?_⟩
        · intro d' hd' v' hv'
          rcases List.mem_cons.mp hd' with h' | h'
          · subst h'
            rw [h0] at hv'
            injection hv' with hv'
            subst hv'
            exact hb
          · exact hall d' h' v' hv'
        · rcases hcase with ⟨hd, hv⟩ | ⟨pre, post, hds, hpv, hbd, hpre⟩
          · subst hd; subst hv
            exact Or.inr ⟨[], ds, rfl, h0, hlt, by simp⟩
          · refine Or.inr ⟨d0 :: pre, post, by rw [hds, List.cons_append], hpv, ?_, ?_⟩
            · rw [verLt_true_iff] at hlt hbd ⊢
              omega
            · intro d' hd' v' hv'
              rcases List.mem_cons.mp hd' with h' | h'
              · subst h'
                rw [h0] at hv'
                injection hv' with hv'
                subst hv'
                exact hbd
              · exact hpre d' h' v' hv'
      · rw [if_neg hlt] at h
        rw [Bool.not_eq_true] at hlt
        obtain ⟨hb, hall, hcase⟩ := maxAux_spec ds b vb d vd h
        refine ⟨hb, ?_, ?_⟩
        · intro d' hd' v' hv'
          rcases List.mem_cons.mp hd' with h' | h'
          · subst h'
            rw [h0] at hv'
            injection hv' with hv'
            subst hv'
            rw [verLt_false_iff] at hb hlt ⊢
            omega
          · exact hall d' h' v' hv'
        · rcases hcase with ⟨hd, hv⟩ | ⟨pre, post, hds, hpv, hbd, hpre⟩
          · exact Or.inl ⟨hd, hv⟩
          · refine Or.inr ⟨d0 :: pre, post, by rw [hds, List.cons_append], hpv, hbd, ?_⟩
            intro d' hd' v' hv'
            rcases List.mem_cons.mp hd' with h' | h'
            · subst h'
              rw [h0] at hv'
              injection hv' with hv'
              subst hv'
              rw [verLt_true_iff] at hbd ⊢
              rw [verLt_false_iff] at hlt
              omega
            · exact hpre d' h' v' hv'

/-- Specification of `max(dirs, key=product_version, default=None)` when it
returns a directory: the directory splits the list, every directory
enumerated before it has a strictly smaller version, and no directory at
all has a strictly larger one. -/
theorem maxList_spec (ds : List FPath) (d : FPath)
    (h : maxConfigDirList ds = .ok (some d)) :
    ∃ v pre post, ds = pre ++ d :: post ∧ product_version d = .ok v ∧
      (∀ d' ∈ pre, ∀ v', product_version d' = .ok v' → verLt v' v = true) ∧
      (∀ d' ∈ ds, ∀ v', product_version d' = .ok v' → verLt v v' = false) := by
  cases ds with
  | nil => exact absurd h (by simp [maxConfigDirList])
  | cons d0 ds' =>
    rw [maxConfigDirList] at h
    cases h0 : product_version d0 with
    | error e => rw [h0] at h; exact absurd h (by simp)
    | ok v0 =>
      rw [h0] at h
      dsimp only at h
      cases haux : maxConfigDirAux (d0, v0) ds' with
      | error e => rw [haux] at h; exact absurd h (by simp [Except.map])
      | ok bpair =>
        obtain ⟨d1, vd⟩ := bpair
        rw [haux] at h
        simp only [Except.map, Except.ok.injEq, Option.some.injEq] at h
        subst h
        obtain ⟨hb, hall, hcase⟩ := maxAux_spec ds' d0 v0 d1 vd haux
        have hmem : ∀ d' ∈ d0 :: ds', ∀ v', product_version d' = .ok v' → verLt vd v' = false := by
          intro d' hd' v' hv'
          rcases List.mem_cons.mp hd' with h' | h'
          · subst h'
            rw [h0] at hv'
            injection hv' with hv'
            subst hv'
            exact hb
          · exact hall d' h' v' hv'
        rcases hcase with ⟨hd, hv⟩ | ⟨pre, post, hds, hpv, hbd, hpre⟩
        · refine ⟨vd, [], ds', by simp [hd], ?_, by simp, hmem⟩
          rw [hd, hv]; exact h0
        · refine ⟨vd, d0 :: pre, post, by rw [hds, List.cons_append], hpv, ?_, hmem⟩
          intro d' hd' v' hv'
          rcases List.mem_cons.mp hd' with h' | h'
          · subst h'
            rw [h0] at hv'
            injection hv' with hv'
            subst hv'
            exact hbd
          · exact hpre d' h' v' hv'

/-- C4: for every product whose glob matches at least one config directory,
the resolved config directory — the one whose recent-projects file is
returned — has an extracted (year, revision) tuple maximal under numeric
tuple ordering over all matched directories. -/
theorem C4_max_version_selected (fs : FS) (product : ProductInfo) (f : FPath)
    (h : find_latest_recent_projects_file fs product = .ok (some f)) :
    ∃ d v, d ∈ find_config_directories fs product ∧
      product_version d = .ok v ∧
      (f = (d.join "options").join "recentSolutions.xml" ∨
       f = (d.join "options").join "recentProjects.xml") ∧
      ∀ d' ∈ find_config_directories fs product, ∀ v',
        product_version d' = .ok v' → verLt v v' = false := by
  rw [find_latest_recent_projects_file] at h
  cases hm : maxConfigDirList (find_config_directories fs product) with
  | error e =>
    rw [hm] at h
    exact absurd h (by simp [Bind.bind, Except.bind])
  | ok bestOpt =>
    rw [hm] at h
    cases bestOpt with
    | none => exact absurd h (by simp [Bind.bind, Except.bind, pure, Except.pure])
    | some cd =>
      obtain ⟨v, pre, post, hds, hpv, hpre, hall⟩ := maxList_spec _ cd hm
      have hmem : cd ∈ find_config_directories fs product := by
        rw [hds]; exact List.mem_append.mpr (Or.inr (List.mem_cons_self _ _))
      refine ⟨cd, v, hmem, hpv, ?_, hall⟩
      by_cases hk : (product.key == "rider") = true
      · simp only [Bind.bind, Except.bind, hk, if_pos, pure, Except.pure,
          Except.ok.injEq, Option.some.injEq] at h
        exact Or.inl h.symm
      · rw [Bool.not_eq_true] at hk
        simp only [Bind.bind, Except.bind, hk, Bool.false_eq_true, if_false, pure,
          Except.pure, Except.ok.injEq, Option.some.injEq] at h
        exact Or.inr h.symm

/-- Witness for C4 at the two-directory fixture with versions (2023, 1)
and (2023, 2): the maximal directory is selected, and it is concretely the
(2023, 2) one. -/
theorem C4_witness :
    (∃ d v, d ∈ find_config_directories fixtureOk ideaProduct ∧
      product_version d = .ok v ∧
      ((((jbP.join "IntelliJIdea2023.2").join "options").join "recentProjects.xml") =
         (d.join "options").join "recentSolutions.xml" ∨
       (((jbP.join "IntelliJIdea2023.2").join "options").join "recentProjects.xml") =
         (d.join "options").join "recentProjects.xml") ∧
      ∀ d' ∈ find_config_directories fixtureOk ideaProduct, ∀ v',
        product_version d' = .ok v' → verLt v v' = false) ∧
    find_latest_recent_projects_file fixtureOk ideaProduct =
      .ok (some (((jbP.join "IntelliJIdea2023.2").join "options").join "recentProjects.xml")) :=
  ⟨C4_max_version_selected fixtureOk ideaProduct
    ((((jbP.join "IntelliJIdea2023.2").join "options").join "recentProjects.xml")) (by rfl),
   by rfl⟩

/-- C5 counterexample: two `idea` config directories share the maximal
version (2023, 2); the enumeration yields the north one first and the
south one last, yet the selected recent-projects file lives under the
north one — the first yielded, not the last. -/
theorem C5_counterexample :
    find_config_directories fixtureC5 ideaProduct =
      [jbP.join "IntelliJIdea2023.2north", jbP.join "IntelliJIdea2023.2south"] ∧
    product_version (jbP.join "IntelliJIdea2023.2north") = .ok (2023, 2) ∧
    product_version (jbP.join "IntelliJIdea2023.2south") = .ok (2023, 2) ∧
    find_latest_recent_projects_file fixtureC5 ideaProduct =
      .ok (some (((jbP.join "IntelliJIdea2023.2north").join "options").join "recentProjects.xml")) ∧
    jbP.join "IntelliJIdea2023.2north" ≠ jbP.join "IntelliJIdea2023.2south" := by
  refine ⟨by rfl, by rfl, by rfl, by rfl, by decide⟩

/-- C5 (amended): when two or more matched config directories share the
maximal version tuple, the directory selected is the one yielded first by
the underlying enumeration — every directory enumerated before it has a
strictly smaller version and no directory after it a strictly larger one —
and the selection is a function of the enumerated list, hence
deterministic for a fixed input set. -/
theorem C5_first_of_maximal (fs : FS) (product : ProductInfo) (d : FPath)
    (h : maxConfigDirList (find_config_directories fs product) = .ok (some d)) :
    ∃ v pre post, find_config_directories fs product = pre ++ d :: post ∧
      product_version d = .ok v ∧
      (∀ d' ∈ pre, ∀ v', product_version d' = .ok v' → verLt v' v = true) ∧
      (∀ d' ∈ post, ∀ v', product_version d' = .ok v' → verLt v v' = false) := by
  obtain ⟨v, pre, post, hds, hpv, hpre, hall⟩ := maxList_spec _ d h
  refine ⟨v, pre, post, hds, hpv, hpre, ?_⟩
  intro d' hd' v' hv'
  refine hall d' ?_ v' hv'
  rw [hds]
  exact List.mem_append.mpr (Or.inr (List.mem_cons_of_mem _ hd'))

/-- Witness for the amended C5 at the equal-version fixture: the north
directory (enumerated first) is the selected one. -/
theorem C5_witness :
    ∃ v pre post, find_config_directories fixtureC5 ideaProduct =
        pre ++ (jbP.join "IntelliJIdea2023.2north") :: post ∧
      product_version (jbP.join "IntelliJIdea2023.2north") = .ok v ∧
      (∀ d' ∈ pre, ∀ v', product_version d' = .ok v' → verLt v' v = true) ∧
      (∀ d' ∈ post, ∀ v', product_version d' = .ok v' → verLt v v' = false) :=
  C5_first_of_maximal fixtureC5 ideaProduct (jbP.join "IntelliJIdea2023.2north") (by rfl)

/-- C6 counterexample: for a pre-2020 IDEA version (2019.3) the file read
is still `<config-dir>/options/recentProjects.xml`; the code has no
`<config-dir>/config/options/recentProjects.xml` branch. -/
theorem C6_counterexample :
    find_latest_recent_projects_file fixtureC6 ideaProduct =
      .ok (some (((jbP.join "IntelliJIdea2019.3").join "options").join "recentProjects.xml")) ∧
    ((jbP.join "IntelliJIdea2019.3").join "options").join "recentProjects.xml" ≠
      ((((jbP.join "IntelliJIdea2019.3").join "config").join "options").join "recentProjects.xml") :=
  ⟨by rfl, by decide⟩

/-- C6 (amended): whenever a recent-projects file is resolved, it lies
directly under the selected config directory: `options/recentSolutions.xml`
for the product with key `rider` and `options/recentProjects.xml` for every
other product, with no version-dependent variation. -/
theorem C6_file_location (fs : FS) (product : ProductInfo) (f : FPath)
    (h : find_latest_recent_projects_file fs product = .ok (some f)) :
    ∃ d, d ∈ find_config_directories fs product ∧
      f = (d.join "options").join
        (if product.key == "rider" then "recentSolutions.xml" else "recentProjects.xml") := by
  rw [find_latest_recent_projects_file] at h
  cases hm : maxConfigDirList (find_config_directories fs product) with
  | error e => rw [hm] at h; exact absurd h (by simp [Bind.bind, Except.bind])
  | ok bestOpt =>
    rw [hm] at h
    cases bestOpt with
    | none => exact absurd h (by simp [Bind.bind, Except.bind, pure, Except.pure])
    | some cd =>
      obtain ⟨v, pre, post, hds, hpv, hpre, hall⟩ := maxList_spec _ cd hm
      have hmem : cd ∈ find_config_directories fs product := by
        rw [hds]; exact List.mem_append.mpr (Or.inr (List.mem_cons_self _ _))
      refine ⟨cd, hmem, ?_⟩
      by_cases hk : (product.key == "rider") = true
      · simp only [Bind.bind, Except.bind, hk, if_true, pure, Except.pure,
          Except.ok.injEq, Option.some.injEq] at h ⊢
        exact h.symm
      · rw [Bool.not_eq_true] at hk
        simp only [Bind.bind, Except.bind, hk, Bool.false_eq_true, if_false, pure,
          Except.pure, Except.ok.injEq, Option.some.injEq] at h ⊢
        exact h.symm

/-- Witness for the amended C6 at the Rider fixture: the resolved file is
`options/recentSolutions.xml` under the Rider config directory. -/
theorem C6_witness :
    ∃ d, d ∈ find_config_directories fixtureRider riderProduct ∧
      (((jbP.join "Rider2023.1").join "options").join "recentSolutions.xml") =
        (d.join "options").join
          (if riderProduct.key == "rider" then "recentSolutions.xml" else "recentProjects.xml") :=
  C6_file_location fixtureRider riderProduct
    (((jbP.join "Rider2023.1").join "options").join "recentSolutions.xml") (by rfl)

/-- C7 counterexample: a name file containing `" MyApp \n"` yields record
name `"MyApp"` (stripped), not the file's content; and when the entry
denotes a file and the name file is absent, the record name is the entry's
final component `thing.ipr`, not the project directory's base name `app`. -/
theorem C7_counterexample :
    get_project fixtureC7a ideaProduct (parseFPath "/home/user/projects/app") =
      .ok { id := "jetbrains-search-provider-idea-/home/user/projects/app",
            name := "MyApp",
            path := "/home/user/projects/app",
            abspath := "/home/user/projects/app" } ∧
    fixtureC7a.readText (namefile_of fixtureC7a (parseFPath "/home/user/projects/app")) =
      .ok " MyApp \n" ∧
    ("MyApp" : String) ≠ " MyApp \n" ∧
    get_project fixtureC7b ideaProduct (parseFPath "/home/user/projects/app/thing.ipr") =
      .ok { id := "jetbrains-search-provider-idea-/home/user/projects/app/thing.ipr",
            name := "thing.ipr",
            path := "/home/user/projects/app/thing.ipr",
            abspath := "/home/user/projects/app/thing.ipr" } ∧
    project_dir_of fixtureC7b (parseFPath "/home/user/projects/app/thing.ipr") =
      parseFPath "/home/user/projects/app" ∧
    ("thing.ipr" : String) ≠ "app" :=
  ⟨by rfl, by rfl, by decide, by rfl, by rfl, by decide⟩

/-- C7 (amended): for every surviving entry, when reading the name file
`<project-dir>/.idea/.name` succeeds the record's name is that content
stripped of surrounding whitespace, and when the file is absent
(`FileNotFoundError`) the name is the entry path's final component (which
equals the project directory's base name whenever the entry denotes the
directory itself). -/
theorem C7_name_rule (fs : FS) (product : ProductInfo) (path : FPath) (r : Project)
    (h : get_project fs product path = .ok r) :
    (∀ s, fs.readText (namefile_of fs path) = .ok s → r.name = stripStr s) ∧
    (∀ m, fs.readText (namefile_of fs path) = .error (.fileNotFound m) → r.name = path.name) := by
  rw [get_project] at h
  constructor
  · intro s hs
    rw [hs] at h
    simp only [Except.map, Except.ok.injEq] at h
    rw [← h]
  · intro m hm
    rw [hm] at h
    simp only [Except.map, Except.ok.injEq] at h
    rw [← h]

/-- Witness for the amended C7: the fixture's name file holds
`" MyApp \n"` and the produced record's name is its stripped form. -/
theorem C7_witness :
    ∃ r, get_project fixtureC7a ideaProduct (parseFPath "/home/user/projects/app") = .ok r ∧
      r.name = stripStr " MyApp \n" :=
  ⟨{ id := "jetbrains-search-provider-idea-/home/user/projects/app",
     name := "MyApp",
     path := "/home/user/projects/app",
     abspath := "/home/user/projects/app" },
   by rfl,
   (C7_name_rule fixtureC7a ideaProduct (parseFPath "/home/user/projects/app") _ (by rfl)).1
     " MyApp \n" (by rfl)⟩

/-- C8 counterexample: a permission error while reading the name file is
not recovered — `get_project` propagates it and produces no record. -/
theorem C8_counterexample :
    get_project fixtureC8 ideaProduct (parseFPath "/home/user/projects/app") =
      .error (.osError "Permission denied") := by rfl

/-- C8 (amended): only `FileNotFoundError` while reading the name file is
recovered locally (the record is still produced with the fallback name);
every other filesystem error propagates out of record construction. -/
theorem C8_only_fnf_recovered (fs : FS) (product : ProductInfo) (path : FPath) :
    (∀ m, fs.readText (namefile_of fs path) = .error (.fileNotFound m) →
       ∃ r, get_project fs product path = .ok r ∧ r.name = path.name) ∧
    (∀ e, fs.readText (namefile_of fs path) = .error e → (∀ m, e ≠ .fileNotFound m) →
       get_project fs product path = .error e) := by
  constructor
  · intro m hm
    refine ⟨{ id := "jetbrains-search-provider-" ++ product.key ++ "-"
                ++ (FPath.expanduser fs.home path).render,
              name := path.name,
              path := path.render,
              abspath := (FPath.expanduser fs.home path).render }, ?_, rfl⟩
    rw [get_project, hm]
    rfl
  · intro e he hnot
    rw [get_project, he]
    cases e with
    | fileNotFound m => exact absurd rfl (hnot m)
    | valueError m => rfl
    | osError m => rfl
    | parseError m => rfl

/-- Witness for the amended C8: the missing name file yields a record with
the fallback name, while a permission error propagates. -/
theorem C8_witness :
    (∃ r, get_project emptyFS ideaProduct (parseFPath "/home/user/projects/app") = .ok r ∧
       r.name = (parseFPath "/home/user/projects/app").name) ∧
    get_project fixtureC8 ideaProduct (parseFPath "/home/user/projects/app") =
      .error (.osError "Permission denied") :=
  ⟨(C8_only_fnf_recovered emptyFS ideaProduct (parseFPath "/home/user/projects/app")).1
     "/home/user/projects/app/.idea/.name" (by rfl),
   (C8_only_fnf_recovered fixtureC8 ideaProduct (parseFPath "/home/user/projects/app")).2
     (.osError "Permission denied") (by rfl) (fun m h => PyErr.noConfusion h)⟩

/-- C9: if any exception escapes discovery the program prints a single
JSON object with string fields kind = "error", message and traceback and
exits with status 1; if none escapes it exits with status 0. -/
theorem C9_error_reporting (fs : FS) :
    (∀ e, find_all_recent_projects fs = .error e →
       main_run fs = (Json.obj [("kind", .str "error"), ("message", .str e.message),
         ("traceback", .str e.formatExc)], 1)) ∧
    (∀ l, find_all_recent_projects fs = .ok l → (main_run fs).2 = 0) := by
  constructor
  · intro e he
    rw [main_run, he]
    rfl
  · intro l hl
    rw [main_run, hl]

/-- Witness for C9: an invalid config directory name makes discovery raise,
producing the error document and exit status 1, while the working fixture
exits with status 0. -/
theorem C9_witness :
    main_run fixtureErr =
      (Json.obj [("kind", .str "error"),
        ("message", .str ((PyErr.valueError "Not a valid IDEA config directory: /home/user/.config/JetBrains/IntelliJIdeaNoVersion").message)),
        ("traceback", .str ((PyErr.valueError "Not a valid IDEA config directory: /home/user/.config/JetBrains/IntelliJIdeaNoVersion").formatExc))], 1) ∧
    (main_run fixtureOk).2 = 0 :=
  ⟨(C9_error_reporting fixtureErr).1
     (.valueError "Not a valid IDEA config directory: /home/user/.config/JetBrains/IntelliJIdeaNoVersion")
     (by rfl),
   (C9_error_reporting fixtureOk).2 fixtureOkResult (by rfl)⟩

/-- The pair yielded for one product carries that product's key. -/
theorem discoverOne_key (fs : FS) (product : ProductInfo) (entry : String × List Project)
    (h : discoverOne fs product = .ok entry) : entry.1 = product.key := by
  rw [discoverOne] at h
  cases hcf : find_latest_recent_projects_file fs product with
  | error e => rw [hcf] at h; exact absurd h (by simp [Bind.bind, Except.bind])
  | ok copt =>
    rw [hcf] at h
    simp only [Bind.bind, Except.bind] at h
    cases copt with
    | none =>
      simp only [pure, Except.pure, Except.ok.injEq] at h
      rw [← h]
    | some f =>
      by_cases hex : fs.pexists f = true
      · simp only [hex, if_true] at h
        cases hfr : find_recent_projects fs product f with
        | error e => rw [hfr] at h; exact absurd h (by simp)
        | ok ps =>
          rw [hfr] at h
          simp only [pure, Except.pure, Except.ok.injEq] at h
          rw [← h]
      · rw [Bool.not_eq_true] at hex
        simp only [hex, Bool.false_eq_true, if_false, pure, Except.pure, Except.ok.injEq] at h
        rw [← h]

/-- A product's record list is empty or comes from its recent-projects
file. -/
theorem discoverOne_records (fs : FS) (product : ProductInfo) (k : String)
    (recs : List Project) (h : discoverOne fs product = .ok (k, recs)) :
    recs = [] ∨ ∃ f, find_recent_projects fs product f = .ok recs := by
  rw [discoverOne] at h
  cases hcf : find_latest_recent_projects_file fs product with
  | error e => rw [hcf] at h; exact absurd h (by simp [Bind.bind, Except.bind])
  | ok copt =>
    rw [hcf] at h
    simp only [Bind.bind, Except.bind] at h
    cases copt with
    | none =>
      simp only [pure, Except.pure, Except.ok.injEq, Prod.mk.injEq] at h
      exact Or.inl h.2.symm
    | some f =>
      by_cases hex : fs.pexists f = true
      · simp only [hex, if_true] at h
        cases hfr : find_recent_projects fs product f with
        | error e => rw [hfr] at h; exact absurd h (by simp)
        | ok ps =>
          rw [hfr] at h
          simp only [pure, Except.pure, Except.ok.injEq, Prod.mk.injEq] at h
          exact Or.inr ⟨f, by rw [hfr, h.2]⟩
      · rw [Bool.not_eq_true] at hex
        simp only [hex, Bool.false_eq_true, if_false, pure, Except.pure, Except.ok.injEq,
          Prod.mk.injEq] at h
        exact Or.inl h.2.symm

/-- A product with no resolved or no existing recent-projects file yields
the pair `(key, [])`. -/
theorem discoverOne_empty (fs : FS) (product : ProductInfo)
    (h : find_latest_recent_projects_file fs product = .ok none ∨
      ∃ f, find_latest_recent_projects_file fs product = .ok (some f) ∧ fs.pexists f = false) :
    discoverOne fs product = .ok (product.key, []) := by
  rw [discoverOne]
  rcases h with h | ⟨f, hf, hex⟩
  · rw [h]; rfl
  · rw [hf]
    simp only [Bind.bind, Except.bind, hex, Bool.false_eq_true, if_false]
    rfl

/-- On success the yielded keys are exactly the product keys, in order. -/
theorem discoverAll_keys (fs : FS) :
    ∀ (prods : List ProductInfo) (l : List (String × List Project)),
    discoverAll fs prods = .ok l → l.map Prod.fst = prods.map ProductInfo.key
  | [], l, h => by
    simp only [discoverAll, Except.ok.injEq] at h
    rw [← h]; rfl
  | product :: rest, l, h => by
    rw [discoverAll] at h
    cases hone : discoverOne fs product with
    | error e => rw [hone] at h; exact absurd h (by simp [Bind.bind, Except.bind])
    | ok entry =>
      rw [hone] at h
      simp only [Bind.bind, Except.bind] at h
      cases hrest : discoverAll fs rest with
      | error e => rw [hrest] at h; exact absurd h (by simp)
      | ok others =>
        rw [hrest] at h
        simp only [pure, Except.pure, Except.ok.injEq] at h
        rw [← h]
        simp only [List.map_cons]
        rw [discoverOne_key fs product entry hone,
            discoverAll_keys fs rest others hrest]

/-- Each listed product whose iteration yields `(key, [])` contributes
that pair to a successful aggregate result. -/
theorem discoverAll_mem_empty (fs : FS) :
    ∀ (prods : List ProductInfo) (l : List (String × List Project)),
    discoverAll fs prods = .ok l → ∀ product ∈ prods,
    discoverOne fs product = .ok (product.key, []) →
    (product.key, ([] : List Project)) ∈ l
  | [], l, h, product, hp, _ => absurd hp (by simp)
  | q :: rest, l, h, product, hp, hone => by
    rw [discoverAll] at h
    cases honeq : discoverOne fs q with
    | error e => rw [honeq] at h; exact absurd h (by simp [Bind.bind, Except.bind])
    | ok entry =>
      rw [honeq] at h
      simp only [Bind.bind, Except.bind] at h
      cases hrest : discoverAll fs rest with
      | error e => rw [hrest] at h; exact absurd h (by simp)
      | ok others =>
        rw [hrest] at h
        simp only [pure, Except.pure, Except.ok.injEq] at h
        rw [← h]
        rcases List.mem_cons.mp hp with h' | h'
        · subst h'
          rw [honeq] at hone
          injection hone with hone
          rw [← hone]
          exact List.mem_cons_self _ _
        · exact List.mem_cons_of_mem _
            (discoverAll_mem_empty fs rest others hrest product h' hone)

/-- Every entry of a successful aggregate result is the yield of one of
the listed products. -/
theorem discoverAll_entries (fs : FS) :
    ∀ (prods : List ProductInfo) (l : List (String × List Project)),
    discoverAll fs prods = .ok l → ∀ e ∈ l,
    ∃ product ∈ prods, discoverOne fs product = .ok e
  | [], l, h, e, he => by
    simp only [discoverAll, Except.ok.injEq] at h
    rw [← h] at he
    cases he
  | q :: rest, l, h, e, he => by
    rw [discoverAll] at h
    cases honeq : discoverOne fs q with
    | error er => rw [honeq] at h; exact absurd h (by simp [Bind.bind, Except.bind])
    | ok entry =>
      rw [honeq] at h
      simp only [Bind.bind, Except.bind] at h
      cases hrest : discoverAll fs rest with
      | error er => rw [hrest] at h; exact absurd h (by simp)
      | ok others =>
        rw [hrest] at h
        simp only [pure, Except.pure, Except.ok.injEq] at h
        rw [← h] at he
        rcases List.mem_cons.mp he with h' | h'
        · exact ⟨q, List.mem_cons_self _ _, by rw [honeq, h']⟩
        · obtain ⟨product, hpm, hpo⟩ := discoverAll_entries fs rest others hrest e h'
          exact ⟨product, List.mem_cons_of_mem _ hpm, hpo⟩

/-- A produced record's `abspath` field renders the expanded entry path. -/
theorem get_project_abspath (fs : FS) (product : ProductInfo) (path : FPath) (r : Project)
    (h : get_project fs product path = .ok r) :
    r.abspath = (FPath.expanduser fs.home path).render := by
  rw [get_project] at h
  cases hrt : fs.readText (namefile_of fs path) with
  | ok s =>
    rw [hrt] at h
    simp only [Except.map, Except.ok.injEq] at h
    rw [← h]
  | error e =>
    rw [hrt] at h
    cases e with
    | fileNotFound m =>
      simp only [Except.map, Except.ok.injEq] at h
      rw [← h]
    | valueError m => exact absurd h (by simp [Except.map])
    | osError m => exact absurd h (by simp [Except.map])
    | parseError m => exact absurd h (by simp [Except.map])

/-- Every record collected by the filter loop comes from a listed path
whose expanded form exists. -/
theorem collectProjects_mem (fs : FS) (product : ProductInfo) :
    ∀ (ps : List FPath) (l : List Project),
    collectProjects fs product ps = .ok l → ∀ r ∈ l,
    ∃ p ∈ ps, fs.pexists (FPath.expanduser fs.home p) = true ∧
      get_project fs product p = .ok r
  | [], l, h, r, hr => by
    simp only [collectProjects, Except.ok.injEq] at h
    rw [← h] at hr
    cases hr
  | p :: ps, l, h, r, hr => by
    rw [collectProjects] at h
    by_cases hex : fs.pexists (FPath.expanduser fs.home p) = true
    · rw [if_pos hex] at h
      cases hgp : get_project fs product p with
      | error e => rw [hgp] at h; exact absurd h (by simp [Bind.bind, Except.bind])
      | ok proj =>
        rw [hgp] at h
        simp only [Bind.bind, Except.bind] at h
        cases hrest : collectProjects fs product ps with
        | error e => rw [hrest] at h; exact absurd h (by simp)
        | ok rest =>
          rw [hrest] at h
          simp only [pure, Except.pure, Except.ok.injEq] at h
          rw [← h] at hr
          rcases List.mem_cons.mp hr with h' | h'
          · exact ⟨p, List.mem_cons_self _ _, hex, by rw [hgp, h']⟩
          · obtain ⟨q, hq, hqe, hqr⟩ := collectProjects_mem fs product ps rest hrest r h'
            exact ⟨q, List.mem_cons_of_mem _ hq, hqe, hqr⟩
    · rw [if_neg hex] at h
      obtain ⟨q, hq, hqe, hqr⟩ := collectProjects_mem fs product ps l h r hr
      exact ⟨q, List.mem_cons_of_mem _ hq, hqe, hqr⟩

/-- C2: a project record appears in the output only if its fully resolved
path (home placeholder expanded) exists on disk at the time the record is
produced; non-existing entries are silently omitted by construction. -/
theorem C2_record_path_exists (fs : FS) (l : List (String × List Project))
    (h : find_all_recent_projects fs = .ok l) (k : String) (recs : List Project)
    (hm : (k, recs) ∈ l) (r : Project) (hr : r ∈ recs) :
    ∃ p : FPath, fs.pexists p = true ∧ r.abspath = p.render := by
  obtain ⟨product, hp, hone⟩ := discoverAll_entries fs PRODUCTS l h (k, recs) hm
  rcases discoverOne_records fs product k recs hone with hrecs | ⟨f, hfr⟩
  · rw [hrecs] at hr; cases hr
  · rw [find_recent_projects] at hfr
    cases hx : fs.parseXml f with
    | error e => rw [hx] at hfr; exact absurd hfr (by simp [Bind.bind, Except.bind])
    | ok values =>
      rw [hx] at hfr
      simp only [Bind.bind, Except.bind] at hfr
      obtain ⟨p, hp', hex, hgp⟩ := collectProjects_mem fs product _ recs hfr r hr
      exact ⟨FPath.expanduser fs.home p, hex, get_project_abspath fs product p r hgp⟩

/-- Witness for C2 at the working fixture: the emitted record's abspath
denotes an existing path. -/
theorem C2_witness :
    ∃ p : FPath, fixtureOk.pexists p = true ∧ helloProject.abspath = p.render :=
  C2_record_path_exists fixtureOk fixtureOkResult (by rfl) "idea" [helloProject]
    (by exact List.mem_cons_self _ _) helloProject (List.mem_cons_self _ _)

/-- C10: a successful run's projects value has exactly one entry per
supported product, in the fixed order idea, idea-ce, webstorm, clion,
goland, pycharm, phpstorm, rider; a product with no matching config
directory or whose recent-projects file does not exist contributes the
pair (key, empty list). -/
theorem C10_all_products (fs : FS) (l : List (String × List Project))
    (h : find_all_recent_projects fs = .ok l) :
    l.map Prod.fst =
      ["idea", "idea-ce", "webstorm", "clion", "goland", "pycharm", "phpstorm", "rider"] ∧
    ∀ product ∈ PRODUCTS,
      (find_latest_recent_projects_file fs product = .ok none ∨
       ∃ f, find_latest_recent_projects_file fs product = .ok (some f) ∧
         fs.pexists f = false) →
      (product.key, ([] : List Project)) ∈ l := by
  constructor
  · exact discoverAll_keys fs PRODUCTS l h
  · intro product hp hcond
    exact discoverAll_mem_empty fs PRODUCTS l h product hp (discoverOne_empty fs product hcond)

/-- Witness for C10 on the empty filesystem: all eight keys appear in
order and the idea product contributes an empty list. -/
theorem C10_witness :
    emptyResult.map Prod.fst =
      ["idea", "idea-ce", "webstorm", "clion", "goland", "pycharm", "phpstorm", "rider"] ∧
    ("idea", ([] : List Project)) ∈ emptyResult :=
  ⟨(C10_all_products emptyFS emptyResult (by rfl)).1,
   (C10_all_products emptyFS emptyResult (by rfl)).2 ideaProduct (by decide)
     (Or.inl (by rfl))⟩

/-- Each serialised project record is an object with exactly the four
string fields id, name, path, abspath. -/
theorem isRecordObj_projectToJson (p : Project) : isRecordObj (projectToJson p) = true := rfl

/-- The serialised aggregate result is always an array of product pairs
whose records have the four-field shape. -/
theorem outputShapeOk_resultToJson (l : List (String × List Project)) :
    outputShapeOk (resultToJson l) = true := by
  simp only [resultToJson, outputShapeOk, List.all_eq_true]
  intro j hj
  rw [List.mem_map] at hj
  obtain ⟨e, he, rfl⟩ := hj
  simp only [isProductPair, List.all_eq_true]
  intro o ho
  rw [List.mem_map] at ho
  obtain ⟨p, hp, rfl⟩ := ho
  exact isRecordObj_projectToJson p

/-- C1 (amended): when discovery completes without an exception the
program prints exactly one JSON document `{"kind": "success", "projects":
P}` and exits 0, where `P` is an array of `[product-key, records]` pairs
and every record is an object with the fields id, name, path and abspath;
the projects value is a list of pairs, not a flat record list. -/
theorem C1_success_output (fs : FS) (l : List (String × List Project))
    (h : find_all_recent_projects fs = .ok l) :
    main_run fs = (successJson (resultToJson l), 0) ∧
    outputShapeOk (resultToJson l) = true := by
  refine ⟨?_, outputShapeOk_resultToJson l⟩
  rw [main_run, h]

/-- Witness for the amended C1 at the working fixture. -/
theorem C1_witness :
    main_run fixtureOk = (successJson (resultToJson fixtureOkResult), 0) ∧
    outputShapeOk (resultToJson fixtureOkResult) = true :=
  C1_success_output fixtureOk fixtureOkResult (by rfl)

/-- C1 counterexample: on the spec's fixture home directory (pre-2020
dotted layout, never scanned by this code) the printed document holds
eight `[key, []]` pairs, not a one-element list of record objects — the
claimed shape is false for the projects value. -/
theorem C1_counterexample :
    main_run fixtureC1 =
      (successJson (resultToJson (PRODUCTS.map fun p => (p.key, ([] : List Project)))), 0) ∧
    (projectsField (main_run fixtureC1).1).map claimC1Shape = some false :=
  ⟨by rfl, by rfl⟩

/-- A version match can never start at a non-digit character. -/
theorem matchVersionAt_nondigit (c : Char) (cs : List Char) (hc : c.isDigit = false) :
    matchVersionAt (c :: cs) = none := by
  rcases cs with _ | ⟨b, _ | ⟨d, _ | ⟨e, _ | ⟨f, rest⟩⟩⟩⟩ <;>
    simp [matchVersionAt, hc]

/-- The regex search skips any digit-free leading segment. -/
theorem searchVersion_skip (p : List Char) (tail : List Char)
    (hp : ∀ c ∈ p, c.isDigit = false) :
    searchVersion (p ++ tail) = searchVersion tail := by
  induction p with
  | nil => rfl
  | cons c p ih =>
    rw [List.cons_append, searchVersion,
        matchVersionAt_nondigit c _ (hp c (List.mem_cons_self _ _))]
    exact ih (fun c' hc' => hp c' (List.mem_cons_of_mem _ hc'))

/-- A one-digit revision at the end of the name matches. -/
theorem matchVersionAt_rev1 (y1 y2 y3 y4 f : Char)
    (h1 : y1.isDigit = true) (h2 : y2.isDigit = true) (h3 : y3.isDigit = true)
    (h4 : y4.isDigit = true) (hf : f.isDigit = true) :
    matchVersionAt [y1, y2, y3, y4, '.', f] = some ([y1, y2, y3, y4], [f]) := by
  simp [matchVersionAt, h1, h2, h3, h4, hf]

/-- A two-digit revision at the end of the name matches whole. -/
theorem matchVersionAt_rev2 (y1 y2 y3 y4 f g : Char)
    (h1 : y1.isDigit = true) (h2 : y2.isDigit = true) (h3 : y3.isDigit = true)
    (h4 : y4.isDigit = true) (hf : f.isDigit = true) (hg : g.isDigit = true) :
    matchVersionAt [y1, y2, y3, y4, '.', f, g] = some ([y1, y2, y3, y4], [f, g]) := by
  simp [matchVersionAt, h1, h2, h3, h4, hf, hg]

/-- C3 (amended): for a config-directory name consisting of a digit-free
prefix, four year digits, a dot and a revision of one or two digits,
version extraction returns the numeric (year, revision) pair; revisions
are read greedily but capped at two digits, and a name in which the
pattern four-digits dot one-or-two-digits occurs nowhere raises a
ValueError. -/
theorem C3_version_extraction :
    (∀ (p : List Char) (y1 y2 y3 y4 : Char) (r : List Char) (dir : FPath),
       (∀ c ∈ p, c.isDigit = false) →
       y1.isDigit = true → y2.isDigit = true → y3.isDigit = true → y4.isDigit = true →
       ((∃ f, r = [f] ∧ f.isDigit = true) ∨
        (∃ f g, r = [f, g] ∧ f.isDigit = true ∧ g.isDigit = true)) →
       dir.name.data = p ++ [y1, y2, y3, y4] ++ '.' :: r →
       product_version dir = .ok (digitsToNat [y1, y2, y3, y4], digitsToNat r)) ∧
    (∀ dir : FPath, searchVersion dir.name.data = none →
       product_version dir =
         .error (.valueError ("Not a valid IDEA config directory: " ++ dir.render))) := by
  constructor
  · intro p y1 y2 y3 y4 r dir hp h1 h2 h3 h4 hr hname
    rw [product_version, hname, List.append_assoc, searchVersion_skip p _ hp]
    rcases hr with ⟨f, rfl, hf⟩ | ⟨f, g, rfl, hf, hg⟩
    · simp only [List.cons_append, List.nil_append]
      rw [searchVersion, matchVersionAt_rev1 y1 y2 y3 y4 f h1 h2 h3 h4 hf]
    · simp only [List.cons_append, List.nil_append]
      rw [searchVersion, matchVersionAt_rev2 y1 y2 y3 y4 f g h1 h2 h3 h4 hf hg]
  · intro dir h
    rw [product_version, h]

/-- C3 counterexample: the name `IntelliJIdea2023.123` matches the
claimed pattern with revision 123, yet extraction returns (2023, 12) —
the revision is truncated to two digits by the `\d{1,2}` regex. -/
theorem C3_counterexample :
    product_version dirC3 = .ok (2023, 12) ∧ ((2023 : Nat), (12 : Nat)) ≠ (2023, 123) :=
  ⟨by rfl, by decide⟩

/-- Witness for the amended C3 on `IntelliJIdea2023.2`. -/
theorem C3_witness :
    product_version (jbP.join "IntelliJIdea2023.2") =
      .ok (digitsToNat ['2', '0', '2', '3'], digitsToNat ['2']) :=
  (C3_version_extraction).1 "IntelliJIdea".data '2' '0' '2' '3' ['2']
    (jbP.join "IntelliJIdea2023.2") (by decide) (by decide) (by decide) (by decide)
    (by decide) (Or.inl ⟨'2', rfl, by decide⟩) (by rfl)
